import Mathlib

set_option maxHeartbeats 1000000

namespace XCStrings

/-- Shallow embedding of the Python JSON values handled by the script
(json.loads output).  Objects are association lists in insertion order:
Python dicts preserve insertion order and keep keys unique, which theorems
assume through explicit Nodup hypotheses. -/
inductive Json where
  | null : Json
  | bool (b : Bool) : Json
  | num (n : Int) : Json
  | str (s : String) : Json
  | arr (elems : List Json) : Json
  | obj (fields : List (String × Json)) : Json

/-- Lookup of a key in an object field list (Python dict read). -/
def alistLookup : List (String × Json) → String → Option Json
  | [], _ => none
  | (k, v) :: rest, key => if k = key then some v else alistLookup rest key

/-- Python dict item assignment: replace the value at an existing key
in place, otherwise append the new key at the end. -/
def alistSet : List (String × Json) → String → Json → List (String × Json)
  | [], key, v => [(key, v)]
  | (k, w) :: rest, key, v =>
    if k = key then (key, v) :: rest else (k, w) :: alistSet rest key v

/-- Python dict.get with a default: the fields variant. -/
def pyGet (fs : List (String × Json)) (k : String) (dflt : Json) : Json :=
  (alistLookup fs k).getD dflt

/-- Python whitespace test used by str.strip and str.split (ASCII part). -/
def pyIsSpace (c : Char) : Bool :=
  c = ' ' || c = '\t' || c = '\n' || c = '\r' || c = Char.ofNat 11 || c = Char.ofNat 12

/-- Python str.strip() on the character list. -/
def pyStripList (cs : List Char) : List Char :=
  ((cs.dropWhile pyIsSpace).reverse.dropWhile pyIsSpace).reverse

/-- Python str.strip(). -/
def pyStrip (s : String) : String :=
  String.mk (pyStripList s.data)

/-- Substring test, modelling the Python expression needle in haystack
for strings. -/
def pySubstr (needle : List Char) : List Char → Bool
  | [] => needle.isEmpty
  | c :: t => needle.isPrefixOf (c :: t) || pySubstr needle t

/-- The Python membership test key in container on a JSON value: key
lookup for dicts, element membership for lists, substring for strings,
and a TypeError (none) on the remaining JSON values. -/
def pyIn (k : String) (j : Json) : Option Bool :=
  match j with
  | .obj fs => some (alistLookup fs k).isSome
  | .arr es => some (es.any (fun e => match e with | .str s => decide (s = k) | _ => false))
  | .str s => some (pySubstr k.data s.data)
  | _ => none

/-- Indexing container[key] with a string key: dict lookup succeeds,
everything else (including lists and strings) raises, modelled as none. -/
def pyIndexStr (j : Json) (k : String) : Option Json :=
  match j with
  | .obj fs => alistLookup fs k
  | _ => none

/-- Python str.splitlines worker; the Bool flag records that the previous
character was CR, so that a following LF does not open an extra line.
Line breaks handled: LF, CRLF, CR. -/
def splitlinesAux : List Char → List Char → Bool → List String
  | [], acc, _ => if acc.isEmpty then [] else [String.mk acc.reverse]
  | c :: rest, acc, skipLF =>
    if skipLF && c = '\n' then splitlinesAux rest [] false
    else if c = '\n' then String.mk acc.reverse :: splitlinesAux rest [] false
    else if c = '\r' then String.mk acc.reverse :: splitlinesAux rest [] true
    else splitlinesAux rest (c :: acc) false

/-- Python str.splitlines(). -/
def pySplitlines (s : String) : List String :=
  splitlinesAux s.data [] false

/-- Worker for str.split(maxsplit=1) on the remaining characters: take the
first whitespace-delimited token, then the remainder with the separating
whitespace removed; a whitespace-only remainder is dropped. -/
def splitOnceCore (cs : List Char) : List String :=
  match cs with
  | [] => []
  | _ =>
    let tok := cs.takeWhile (fun c => !(pyIsSpace c))
    let rest := (cs.dropWhile (fun c => !(pyIsSpace c))).dropWhile pyIsSpace
    if rest.isEmpty then [String.mk tok] else [String.mk tok, String.mk rest]

/-- Python line.split(maxsplit=1) with the default whitespace separator:
leading whitespace is skipped first. -/
def pySplitOnce (s : String) : List String :=
  splitOnceCore (s.data.dropWhile pyIsSpace)

/-! Embeddings of the functions of src/script.py.  Python exceptions are
modelled as none: a function returning none at some input is a function
whose source raises there. -/

/-- Embedding of parse_xcstrings (script.py lines 41 to 48).  The file read
and the stdlib JSON decoder are external effects, passed in as the read
outcome and the decoder: readRes is the content of the file or a read
failure (an OSError, which the source does not catch), loads models
json.load on that content with none for a json.JSONDecodeError. -/
inductive LoadError where
  | unreadable : LoadError
  | notJson : LoadError
  | missingStrings : LoadError

/-- The check distinguishing the success branch of parse_xcstrings:
isinstance(data, dict) and "strings" in data. -/
def hasStringsField (d : Json) : Bool :=
  match d with
  | .obj fs => (alistLookup fs "strings").isSome
  | _ => false

def parse_xcstrings (readRes : Except Unit String) (loads : String → Option Json) :
    Except LoadError Json :=
  match readRes with
  | .error _ => .error .unreadable
  | .ok content =>
    match loads content with
    | none => .error .notJson
    | some data => if hasStringsField data then .ok data else .error .missingStrings

/-- The inner half of get_source_text (script.py lines 59 to 61), applied
to string_unit = locs[src_lang].get("stringUnit", \x7b\x7d): return the
value when "value" is present with a non-blank string, fall through to the
key otherwise; none models the exceptions of the expression chain. -/
def sourceFromUnit (key : String) (su : Json) : Option String :=
  match pyIn "value" su with
  | none => none
  | some false => some key
  | some true =>
    match pyIndexStr su "value" with
    | none => none
    | some v =>
      match v with
      | .str s => some (if pyStrip s = "" then key else s)
      | _ => none

/-- The outer half of get_source_text (script.py lines 57 to 62), applied
to locs = entry.get("localizations", \x7b\x7d). -/
def sourceFromLocs (key : String) (locs : Json) (src_lang : String) : Option String :=
  match pyIn src_lang locs with
  | none => none
  | some false => some key
  | some true =>
    match pyIndexStr locs src_lang with
    | none => none
    | some lv =>
      match lv with
      | .obj lfs => sourceFromUnit key (pyGet lfs "stringUnit" (.obj []))
      | _ => some key

/-- Embedding of get_source_text (script.py lines 50 to 62).  none models
an uncaught exception (TypeError from the membership test or indexing on a
non-dict, AttributeError from strip on a non-string). -/
def get_source_text (key : String) (entry : Json) (src_lang : String) : Option String :=
  match entry with
  | .obj efs => sourceFromLocs key (pyGet efs "localizations" (.obj [])) src_lang
  | _ => some key

/-- The retry loop of translate_batch (script.py lines 87 to 108).  The
completion call is an external effect: oracle i is the outcome of the
i-th invocation (0-based).  Arguments: remaining = max_retries - attempt,
the current attempt index.  The result carries the response or the raised
error, the number of invocations made, and the seconds slept in backoff
(time.sleep(3) after each failed attempt other than the last).  none is
the unreachable loop exit without a response (only for max_retries = 0). -/
def retryLoop {E R : Type} (oracle : Nat → Except E R) :
    Nat → Nat → Option (Except E R × Nat × Nat)
  | 0, _ => none
  | rem + 1, attempt =>
    match oracle attempt with
    | .ok r => some (.ok r, 1, 0)
    | .error e =>
      if rem = 0 then some (.error e, 1, 0)
      else
        match retryLoop oracle rem (attempt + 1) with
        | none => none
        | some (res, c, s) => some (res, c + 1, s + 3)

/-- The request stage of translate_batch: max_retries = 3, starting at
attempt 0. -/
def translate_batch_request {E R : Type} (oracle : Nat → Except E R) :
    Option (Except E R × Nat × Nat) :=
  retryLoop oracle 3 0

/-- One step of the fallback loop body of translate_batch (script.py lines
130 to 133): on a stripped non-empty line whose first character is a digit
and whose second is a period or a closing parenthesis, line.split(maxsplit=1)
replaces the line by the part after the ordinal when there is one. -/
def stripOrdinal (line : String) : String :=
  match line.data with
  | c0 :: c1 :: _ =>
    if c0.isDigit && (c1 = '.' || c1 = ')') then
      match pySplitOnce line with
      | [_, rest] => rest
      | _ => line
    else line
  | _ => line

/-- The fallback loop of translate_batch (script.py lines 126 to 134) over
the already split lines. -/
def fallbackLines : List String → List String
  | [] => []
  | l :: rest =>
    let t := pyStrip l
    if t = "" then fallbackLines rest else stripOrdinal t :: fallbackLines rest

/-- Line-based fallback recovery of translate_batch: split the raw response
into lines, strip each, keep the non-empty ones with a leading single-digit
ordinal removed. -/
def fallbackParse (raw : String) : List String :=
  fallbackLines (pySplitlines raw)

/-- The response parsing stage of translate_batch (script.py lines 118 to
134).  loads models json.loads (none = exception); a parsed JSON array is
returned as is, anything else (parse failure or a non-array value, which
the source turns into a raised and then caught ValueError) goes through
the line-based fallback. -/
def parseTranslations (loads : String → Option Json) (raw : String) : List Json :=
  match loads raw with
  | some (.arr elems) => elems
  | _ => (fallbackParse raw).map Json.str

/-- Full translate_batch data path: retry the completion call, then strip
the returned content and parse it.  Token usage accounting is dropped: it
never feeds back into the document. -/
def translate_batch {E : Type} (oracle : Nat → Except E String)
    (loads : String → Option Json) : Option (Except E (List Json)) :=
  match translate_batch_request oracle with
  | none => none
  | some (.error e, _, _) => some (.error e)
  | some (.ok content, _, _) => some (.ok (parseTranslations loads (pyStrip content)))

/-- The localization unit written by update_localizations_for_language. -/
def translatedUnit (text : Json) : Json :=
  .obj [("stringUnit", .obj [("state", .str "translated"), ("value", text)])]

/-- One iteration of the loop of update_localizations_for_language
(script.py lines 146 to 158) on the strings field list: fetch the entry
(an empty dict if absent or not a dict), fetch its localizations (empty
dict default), store the translated unit under the target language, store
the localizations and the entry back.  none models the TypeError raised
by item assignment when the existing localizations value is not a dict. -/
def entryFieldsOf (strings : List (String × Json)) (key : String) :
    List (String × Json) :=
  match (alistLookup strings key).getD (.obj []) with
  | .obj efs => efs
  | _ => []

def mergeOne (strings : List (String × Json)) (key : String) (text : Json)
    (tgt : String) : Option (List (String × Json)) :=
  match pyGet (entryFieldsOf strings key) "localizations" (.obj []) with
  | .obj lfs =>
    some (alistSet strings key
      (.obj (alistSet (entryFieldsOf strings key) "localizations"
        (.obj (alistSet lfs tgt (translatedUnit text))))))
  | _ => none

/-- The loop of update_localizations_for_language over the translations
mapping, threading the strings field list. -/
def mergeFold (strings : List (String × Json)) (tr : List (String × Json))
    (tgt : String) : Option (List (String × Json)) :=
  match tr with
  | [] => some strings
  | (k, t) :: rest =>
    match mergeOne strings k t tgt with
    | none => none
    | some s2 => mergeFold s2 rest tgt

/-- Embedding of update_localizations_for_language (script.py lines 139 to
159).  The translations dict is an association list with unique keys.
data.get("strings", \x7b\x7d) is read first; when it is not a dict the
first loop iteration raises (none), while an empty translations dict only
writes the field back unchanged. -/
def updateStringsDict (dfs : List (String × Json)) (tr : List (String × Json))
    (tgt : String) : Option Json :=
  match pyGet dfs "strings" (.obj []) with
  | .obj sfs =>
    match mergeFold sfs tr tgt with
    | some sfs2 => some (.obj (alistSet dfs "strings" (.obj sfs2)))
    | none => none
  | strings0 =>
    match tr with
    | [] => some (.obj (alistSet dfs "strings" strings0))
    | _ => none

def update_localizations_for_language (data : Json) (tr : List (String × Json))
    (tgt : String) : Option Json :=
  match data with
  | .obj dfs => updateStringsDict dfs tr tgt
  | _ => none

/-- The first skip condition of the selection loop (script.py line 209):
isinstance(entry, dict) and entry.get("shouldTranslate") is False.  Only
the JSON literal false satisfies the identity test against False. -/
def shouldTranslateFalse (e : Json) : Bool :=
  match e with
  | .obj efs =>
    match alistLookup efs "shouldTranslate" with
    | some (.bool false) => true
    | _ => false
  | _ => false

/-- The inner part of the second skip condition of the selection loop
(script.py line 214): the check on locs[target_lang].get("stringUnit",
an empty dict).get("value", "").strip(); none models the exceptions of
that expression chain on malformed values. -/
def skipFromUnit (su : Json) : Option Bool :=
  match su with
  | .obj sfs =>
    match pyGet sfs "value" (.str "") with
    | .str s => some (pyStrip s != "")
    | _ => none
  | _ => none

/-- The outer part of the second skip condition (script.py lines 213 to
216), applied to locs = entry.get("localizations", an empty dict). -/
def skipFromLocs (locs : Json) (tgt : String) : Option Bool :=
  match pyIn tgt locs with
  | none => none
  | some false => some false
  | some true =>
    match pyIndexStr locs tgt with
    | none => none
    | some lv =>
      match lv with
      | .obj ufs => skipFromUnit (pyGet ufs "stringUnit" (.obj []))
      | _ => none

/-- The second skip condition of the selection loop (script.py lines 211
to 216): for a dict entry whose localizations contain the target language,
skip when the existing value for that language is non-blank. -/
def skipExistingTranslated (entry : Json) (tgt : String) : Option Bool :=
  match entry with
  | .obj efs => skipFromLocs (pyGet efs "localizations" (.obj [])) tgt
  | _ => some false

/-- The selection loop of main (script.py lines 206 to 219): walk the
strings dict in order, skip entries with shouldTranslate false, skip
entries already holding a non-blank target value, pair the rest with
their source text. -/
def selectPending (strings : List (String × Json)) (src tgt : String) :
    Option (List (String × String)) :=
  match strings with
  | [] => some []
  | (k, e) :: rest =>
    if shouldTranslateFalse e then selectPending rest src tgt
    else
      match skipExistingTranslated e tgt with
      | none => none
      | some true => selectPending rest src tgt
      | some false =>
        match get_source_text k e src with
        | none => none
        | some t =>
          match selectPending rest src tgt with
          | none => none
          | some ps => some ((k, t) :: ps)

/-- Worker for the batch slicing, structurally recursive on a fuel that
bounds the list length so that concrete runs reduce definitionally. -/
def chunksGo {α : Type} : Nat → List α → List (List α)
  | _, [] => []
  | 0, _ :: _ => []
  | fuel + 1, x :: xs => ((x :: xs).take 10) :: chunksGo fuel ((x :: xs).drop 10)

/-- The batch slicing of main (script.py lines 228 to 229):
keys_to_translate[i:i+10] for i in range(0, total, 10). -/
def pyChunks {α : Type} (l : List α) : List (List α) :=
  chunksGo l.length l

/-- The positional pairing of main (script.py line 236):
zip(batch_keys, translated_batch) turned into the translations dict. -/
def zipKeys (batch : List (String × String)) (results : List Json) :
    List (String × Json) :=
  List.zip (batch.map Prod.fst) results

/-- The batch loop of main (script.py lines 228 to 241) for one target
language: translate each chunk (the translator oracle maps the batch
source texts to the translated list, none meaning the exhausted-retry
exception that aborts the run), merge, continue on the updated document.
persist_file rewrites the same path from the in-memory document and is
dropped from the state. -/
def runBatches (tgt : String) (translator : List String → Option (List Json)) :
    List (List (String × String)) → Json → Option Json
  | [], data => some data
  | b :: rest, data =>
    match translator (b.map Prod.snd) with
    | none => none
    | some results =>
      match update_localizations_for_language data (zipKeys b results) tgt with
      | none => none
      | some d2 => runBatches tgt translator rest d2

/-- The body of the target-language loop of main (script.py lines 200 to
242): skip the source language, select the pending entries from the
current strings dict (AttributeError, hence none, when the strings field
is not a dict), skip the language when nothing is pending, otherwise run
the batches. -/
def runLanguageCore (src : String) (translator : List String → Option (List Json))
    (dfs : List (String × Json)) (tgt : String) : Option Json :=
  match pyGet dfs "strings" (.obj []) with
  | .obj sfs =>
    match selectPending sfs src tgt with
    | none => none
    | some pend =>
      if pend.isEmpty then some (.obj dfs)
      else runBatches tgt translator (pyChunks pend) (.obj dfs)
  | _ => none

def runLanguage (src : String) (translator : List String → Option (List Json))
    (data : Json) (tgt : String) : Option Json :=
  if tgt = src then some data
  else
    match data with
    | .obj dfs => runLanguageCore src translator dfs tgt
    | _ => none

/-- The target-language loop of main, threading the document. -/
def runLangs (src : String) (translator : String → List String → Option (List Json)) :
    List String → Json → Option Json
  | [], data => some data
  | tgt :: rest, data =>
    match runLanguage src (translator tgt) data tgt with
    | none => none
    | some d2 => runLangs src translator rest d2

/-- A full run of main after parsing (script.py lines 191 to 242): the
document must be a dict (line 191 reads data.get("strings", \x7b\x7d)
before the loop), then each requested target language is processed in
order.  The translator oracle is indexed by target language and batch
texts. -/
def runAll (data : Json) (src : String) (langs : List String)
    (translator : String → List String → Option (List Json)) : Option Json :=
  match data with
  | .obj _ => runLangs src translator langs data
  | _ => none

/-! Readers used to state properties of a document. -/

/-- The field list of a JSON value when it is an object. -/
def objFields : Json → Option (List (String × Json))
  | .obj fs => some fs
  | _ => none

/-- The strings field list of a document, when the document is a dict and
the field (defaulted to an empty dict) is a dict. -/
def stringsOf (data : Json) : Option (List (String × Json)) :=
  match data with
  | .obj dfs => objFields (pyGet dfs "strings" (.obj []))
  | _ => none

/-- The entry stored under a key. -/
def lookupString (data : Json) (key : String) : Option Json :=
  (stringsOf data).bind (fun sfs => alistLookup sfs key)

/-- The localization value of an entry for one language. -/
def entryLoc (entry : Json) (lang : String) : Option Json :=
  match entry with
  | .obj efs =>
    match alistLookup efs "localizations" with
    | some (.obj lfs) => alistLookup lfs lang
    | _ => none
  | _ => none

/-- The localization value of the document for a key and a language. -/
def locOf (data : Json) (key lang : String) : Option Json :=
  (lookupString data key).bind (fun e => entryLoc e lang)

/-- Unit layer of the target-value reader: the defaulted value field of a
stringUnit object when it is a string. -/
def entryTargetValueUnit (su : Json) : Option String :=
  match su with
  | .obj sfs =>
    match pyGet sfs "value" (.str "") with
    | .str s => some s
    | _ => none
  | _ => none

/-- Localizations layer of the target-value reader. -/
def entryTargetValueLocs (locs : Json) (tgt : String) : Option String :=
  match locs with
  | .obj lfs =>
    match alistLookup lfs tgt with
    | some (.obj ufs) => entryTargetValueUnit (pyGet ufs "stringUnit" (.obj []))
    | _ => none
  | _ => none

/-- The string at entry.localizations[tgt].stringUnit.value along the
exact defaulted path the selection skip check reads (stringUnit and value
both defaulted), when it is a string. -/
def entryTargetValue (entry : Json) (tgt : String) : Option String :=
  match entry with
  | .obj efs => entryTargetValueLocs (pyGet efs "localizations" (.obj [])) tgt
  | _ => none

/-- Spec-side helper for claim C9, the unit layer: the value field of a
stringUnit object when it is a non-blank string. -/
def specUnitValue (su : Json) : Option String :=
  match su with
  | .obj sfs =>
    match alistLookup sfs "value" with
    | some (.str s) => if pyStrip s = "" then none else some s
    | _ => none
  | _ => none

/-- Spec-side helper for claim C9, the localizations layer. -/
def specLocsValue (locs : Json) (src : String) : Option String :=
  match locs with
  | .obj lfs =>
    match alistLookup lfs src with
    | some (.obj ufs) => specUnitValue (pyGet ufs "stringUnit" (.obj []))
    | _ => none
  | _ => none

/-- Spec-side reading for claim C9: the value stored at
entry.localizations[sourceLang].stringUnit.value when that value exists as
a non-blank string. -/
def specSourceValue (entry : Json) (src : String) : Option String :=
  match entry with
  | .obj efs =>
    match alistLookup efs "localizations" with
    | some (.obj lfs) =>
      match alistLookup lfs src with
      | some (.obj ufs) =>
        match alistLookup ufs "stringUnit" with
        | some (.obj sfs) =>
          match alistLookup sfs "value" with
          | some (.str s) => if pyStrip s = "" then none else some s
          | _ => none
        | _ => none
      | _ => none
    | _ => none
  | _ => none

/-! Association-list lemmas. -/

theorem alistLookup_set_self (fs : List (String × Json)) (k : String) (v : Json) :
    alistLookup (alistSet fs k v) k = some v := by
  induction fs with
  | nil => simp [alistSet, alistLookup]
  | cons p rest ih =>
    obtain ⟨k0, w⟩ := p
    by_cases h : k0 = k
    · simp [alistSet, h, alistLookup]
    · simp [alistSet, h, alistLookup, ih]

theorem alistLookup_set_ne (fs : List (String × Json)) (k k2 : String) (v : Json)
    (h : k2 ≠ k) : alistLookup (alistSet fs k v) k2 = alistLookup fs k2 := by
  induction fs with
  | nil => simp [alistSet, alistLookup, Ne.symm h]
  | cons p rest ih =>
    obtain ⟨k0, w⟩ := p
    by_cases hk : k0 = k
    · subst hk
      simp [alistSet, alistLookup, Ne.symm h]
    · simp only [alistSet, if_neg hk, alistLookup]
      by_cases hk2 : k0 = k2 <;> simp [hk2, ih]

theorem alistSet_keys (fs : List (String × Json)) (k : String) (v : Json) :
    (alistSet fs k v).map Prod.fst =
      if k ∈ fs.map Prod.fst then fs.map Prod.fst else fs.map Prod.fst ++ [k] := by
  induction fs with
  | nil => simp [alistSet]
  | cons p rest ih =>
    obtain ⟨k0, w⟩ := p
    by_cases h : k0 = k
    · simp [alistSet, h]
    · simp only [alistSet, if_neg h, List.map_cons, ih]
      by_cases hm : k ∈ rest.map Prod.fst <;>
        simp [hm, h, Ne.symm h]

theorem alistSet_nodup (fs : List (String × Json)) (k : String) (v : Json)
    (h : (fs.map Prod.fst).Nodup) : ((alistSet fs k v).map Prod.fst).Nodup := by
  rw [alistSet_keys]
  by_cases hm : k ∈ fs.map Prod.fst
  · simpa [hm] using h
  · simp [hm, List.nodup_append, h]

theorem alistLookup_none_iff (fs : List (String × Json)) (k : String) :
    alistLookup fs k = none ↔ k ∉ fs.map Prod.fst := by
  induction fs with
  | nil => simp [alistLookup]
  | cons p rest ih =>
    obtain ⟨k0, w⟩ := p
    by_cases h : k0 = k
    · subst h
      simp [alistLookup]
    · simp [alistLookup, h, ih, Ne.symm h]

theorem alistLookup_mem_keys (fs : List (String × Json)) (k : String) (v : Json)
    (h : alistLookup fs k = some v) : k ∈ fs.map Prod.fst := by
  by_contra hm
  rw [← alistLookup_none_iff] at hm
  rw [h] at hm
  exact Option.noConfusion hm

/-! Batch slicing lemmas. -/

theorem chunksGo_congr {α : Type} :
    ∀ (f1 f2 : Nat) (l : List α), l.length ≤ f1 → l.length ≤ f2 →
      chunksGo f1 l = chunksGo f2 l := by
  intro f1
  induction f1 with
  | zero =>
    intro f2 l h1 _
    have : l = [] := List.length_eq_zero.mp (Nat.le_zero.mp h1)
    subst this
    cases f2 <;> simp [chunksGo]
  | succ f ih =>
    intro f2 l h1 h2
    cases l with
    | nil => cases f2 <;> simp [chunksGo]
    | cons x xs =>
      cases f2 with
      | zero => simp at h2
      | succ f2 =>
        simp only [chunksGo, List.cons.injEq, true_and]
        apply ih
        · simp only [List.length_drop, List.length_cons]
          simp only [List.length_cons] at h1
          omega
        · simp only [List.length_drop, List.length_cons]
          simp only [List.length_cons] at h2
          omega

theorem pyChunks_nil {α : Type} : pyChunks ([] : List α) = [] := rfl

theorem pyChunks_cons {α : Type} (x : α) (xs : List α) :
    pyChunks (x :: xs) = ((x :: xs).take 10) :: pyChunks ((x :: xs).drop 10) := by
  show chunksGo (xs.length + 1) (x :: xs) = _
  simp only [chunksGo, List.cons.injEq, true_and, pyChunks]
  apply chunksGo_congr
  · simp
  · simp

theorem pyChunks_length {α : Type} :
    ∀ (n : Nat) (l : List α), l.length ≤ n → (pyChunks l).length = (l.length + 9) / 10 := by
  intro n
  induction n with
  | zero =>
    intro l h
    have : l = [] := List.length_eq_zero.mp (Nat.le_zero.mp h)
    subst this
    simp [pyChunks_nil]
  | succ n ih =>
    intro l h
    cases l with
    | nil => simp [pyChunks_nil]
    | cons x xs =>
      rw [pyChunks_cons]
      have hd : ((x :: xs).drop 10).length ≤ n := by
        simp only [List.length_drop, List.length_cons]
        simp only [List.length_cons] at h
        omega
      have := ih ((x :: xs).drop 10) hd
      simp only [List.length_cons, List.length_drop] at this ⊢
      rw [this]
      omega

theorem pyChunks_join {α : Type} :
    ∀ (n : Nat) (l : List α), l.length ≤ n → (pyChunks l).flatten = l := by
  intro n
  induction n with
  | zero =>
    intro l h
    have : l = [] := List.length_eq_zero.mp (Nat.le_zero.mp h)
    subst this
    simp [pyChunks_nil]
  | succ n ih =>
    intro l h
    cases l with
    | nil => simp [pyChunks_nil]
    | cons x xs =>
      rw [pyChunks_cons]
      have hd : ((x :: xs).drop 10).length ≤ n := by
        simp only [List.length_drop, List.length_cons]
        simp only [List.length_cons] at h
        omega
      simp only [List.flatten_cons, ih _ hd, List.take_append_drop]

theorem pyChunks_middle_len {α : Type} :
    ∀ (n : Nat) (l : List α), l.length ≤ n →
      ∀ i, i + 1 < (pyChunks l).length → ((pyChunks l).getD i []).length = 10 := by
  intro n
  induction n with
  | zero =>
    intro l h
    have : l = [] := List.length_eq_zero.mp (Nat.le_zero.mp h)
    subst this
    simp [pyChunks_nil]
  | succ n ih =>
    intro l h i hi
    cases l with
    | nil => simp [pyChunks_nil] at hi
    | cons x xs =>
      rw [pyChunks_cons] at hi ⊢
      have hd : ((x :: xs).drop 10).length ≤ n := by
        simp only [List.length_drop, List.length_cons]
        simp only [List.length_cons] at h
        omega
      cases i with
      | zero =>
        simp only [List.getD_cons_zero, List.length_take, List.length_cons]
        simp only [List.length_cons, Nat.lt_iff_add_one_le] at hi
        have hrest : 1 ≤ (pyChunks ((x :: xs).drop 10)).length := by omega
        rw [pyChunks_length (((x :: xs).drop 10).length) _ (le_refl _)] at hrest
        simp only [List.length_drop, List.length_cons] at hrest
        omega
      | succ j =>
        simp only [List.getD_cons_succ]
        apply ih _ hd
        simp only [List.length_cons] at hi
        omega

/-! Merge lemmas. -/

theorem mergeOne_shape (s : List (String × Json)) (k : String) (t : Json) (tgt : String)
    (s2 : List (String × Json)) (h : mergeOne s k t tgt = some s2) :
    ∃ efs lfs, s2 = alistSet s k
      (.obj (alistSet efs "localizations" (.obj (alistSet lfs tgt (translatedUnit t))))) := by
  unfold mergeOne at h
  split at h
  · exact ⟨entryFieldsOf s k, _, (Option.some.inj h).symm⟩
  · exact Option.noConfusion h

theorem mergeOne_lookup_ne (s : List (String × Json)) (k : String) (t : Json) (tgt : String)
    (s2 : List (String × Json)) (h : mergeOne s k t tgt = some s2) (k2 : String)
    (hk : k2 ≠ k) : alistLookup s2 k2 = alistLookup s k2 := by
  obtain ⟨efs, lfs, rfl⟩ := mergeOne_shape s k t tgt s2 h
  exact alistLookup_set_ne _ _ _ _ hk

theorem mergeOne_nodup (s : List (String × Json)) (k : String) (t : Json) (tgt : String)
    (s2 : List (String × Json)) (h : mergeOne s k t tgt = some s2)
    (hnd : (s.map Prod.fst).Nodup) : (s2.map Prod.fst).Nodup := by
  obtain ⟨efs, lfs, rfl⟩ := mergeOne_shape s k t tgt s2 h
  exact alistSet_nodup _ _ _ hnd

theorem mergeFold_frame (tgt : String) :
    ∀ (tr : List (String × Json)) (s s2 : List (String × Json)),
      mergeFold s tr tgt = some s2 → ∀ k, k ∉ tr.map Prod.fst →
        alistLookup s2 k = alistLookup s k := by
  intro tr
  induction tr with
  | nil =>
    intro s s2 h k _
    rw [Option.some.inj h]
  | cons p rest ih =>
    obtain ⟨k0, t0⟩ := p
    intro s s2 h k hk
    have hk2 : k ≠ k0 ∧ k ∉ rest.map Prod.fst := by simpa [not_or] using hk
    unfold mergeFold at h
    cases hm : mergeOne s k0 t0 tgt with
    | none => rw [hm] at h; exact Option.noConfusion h
    | some s1 =>
      rw [hm] at h
      rw [ih s1 s2 h k hk2.2]
      exact mergeOne_lookup_ne s k0 t0 tgt s1 hm k hk2.1

theorem mergeFold_nodup (tgt : String) :
    ∀ (tr : List (String × Json)) (s s2 : List (String × Json)),
      mergeFold s tr tgt = some s2 → (s.map Prod.fst).Nodup →
        (s2.map Prod.fst).Nodup := by
  intro tr
  induction tr with
  | nil =>
    intro s s2 h hnd
    rw [← Option.some.inj h]
    exact hnd
  | cons p rest ih =>
    obtain ⟨k0, t0⟩ := p
    intro s s2 h hnd
    unfold mergeFold at h
    cases hm : mergeOne s k0 t0 tgt with
    | none => rw [hm] at h; exact Option.noConfusion h
    | some s1 =>
      rw [hm] at h
      exact ih s1 s2 h (mergeOne_nodup s k0 t0 tgt s1 hm hnd)

theorem mergeFold_sets (tgt : String) :
    ∀ (tr : List (String × Json)) (s s2 : List (String × Json)),
      (tr.map Prod.fst).Nodup → mergeFold s tr tgt = some s2 →
      ∀ k t, (k, t) ∈ tr →
        ∃ e2, alistLookup s2 k = some e2 ∧ entryLoc e2 tgt = some (translatedUnit t) := by
  intro tr
  induction tr with
  | nil =>
    intro s s2 _ _ k t hkt
    exact absurd hkt (List.not_mem_nil _)
  | cons p rest ih =>
    obtain ⟨k0, t0⟩ := p
    intro s s2 hnd h k t hkt
    unfold mergeFold at h
    cases hm : mergeOne s k0 t0 tgt with
    | none => rw [hm] at h; exact Option.noConfusion h
    | some s1 =>
      rw [hm] at h
      rw [List.map_cons] at hnd
      have hnd2 := List.nodup_cons.mp hnd
      rcases List.mem_cons.mp hkt with heq | hmem
      · injection heq with hk ht
        subst hk; subst ht
        rw [mergeFold_frame tgt rest s1 s2 h k hnd2.1]
        obtain ⟨efs, lfs, rfl⟩ := mergeOne_shape s k t tgt s1 hm
        refine ⟨_, alistLookup_set_self _ _ _, ?_⟩
        simp [entryLoc, alistLookup_set_self]
      · exact ih s1 s2 hnd2.2 h k t hmem

theorem update_eq_of_strings_obj (dfs sfs : List (String × Json))
    (tr : List (String × Json)) (tgt : String)
    (hS : pyGet dfs "strings" (.obj []) = .obj sfs) :
    update_localizations_for_language (.obj dfs) tr tgt =
      (mergeFold sfs tr tgt).map (fun sfs2 => .obj (alistSet dfs "strings" (.obj sfs2))) := by
  show updateStringsDict dfs tr tgt = _
  unfold updateStringsDict
  split
  · rename_i j fs0 heq
    rw [hS] at heq
    injection heq with he
    subst he
    cases mergeFold sfs tr tgt <;> rfl
  · rename_i j hno
    exact absurd hS (hno sfs)

theorem update_nonobj_data (data : Json) (tr : List (String × Json)) (tgt : String)
    (h : ∀ dfs, data ≠ .obj dfs) :
    update_localizations_for_language data tr tgt = none := by
  cases data with
  | obj dfs => exact absurd rfl (h dfs)
  | null => rfl
  | bool b => rfl
  | num n => rfl
  | str st => rfl
  | arr es => rfl

theorem update_nonobj_strings (dfs : List (String × Json)) (tr : List (String × Json))
    (tgt : String) (hS : ∀ sfs, pyGet dfs "strings" (.obj []) ≠ .obj sfs)
    (htr : tr ≠ []) :
    update_localizations_for_language (.obj dfs) tr tgt = none := by
  show updateStringsDict dfs tr tgt = none
  unfold updateStringsDict
  cases hv : pyGet dfs "strings" (.obj []) with
  | obj sfs => exact absurd hv (hS sfs)
  | null => cases tr with | nil => exact absurd rfl htr | cons p r => rfl
  | bool b => cases tr with | nil => exact absurd rfl htr | cons p r => rfl
  | num n => cases tr with | nil => exact absurd rfl htr | cons p r => rfl
  | str st => cases tr with | nil => exact absurd rfl htr | cons p r => rfl
  | arr es => cases tr with | nil => exact absurd rfl htr | cons p r => rfl

/-- Claim C1: for every key in the translations mapping handed to
update_localizations_for_language with target language tgt, after a
completed call the document holds an entry for that key (created if it
was absent), the entry holds a localizations mapping, and its value for
tgt is the unit with state "translated" and value the mapped text,
regardless of any prior localization for that key and language. -/
theorem update_localizations_sets_target (data : Json) (tr : List (String × Json))
    (tgt : String) (data2 : Json) (hnd : (tr.map Prod.fst).Nodup)
    (h : update_localizations_for_language data tr tgt = some data2) :
    ∀ k t, (k, t) ∈ tr →
      locOf data2 k tgt =
        some (.obj [("stringUnit", .obj [("state", .str "translated"), ("value", t)])]) := by
  intro k t hkt
  cases data with
  | obj dfs =>
    cases hS : pyGet dfs "strings" (.obj []) with
    | obj sfs =>
      rw [update_eq_of_strings_obj dfs sfs tr tgt hS] at h
      cases hf : mergeFold sfs tr tgt with
      | none => rw [hf] at h; exact Option.noConfusion h
      | some sfs2 =>
        rw [hf] at h
        have hd2 : data2 = .obj (alistSet dfs "strings" (.obj sfs2)) :=
          (Option.some.inj h).symm
        subst hd2
        obtain ⟨e2, he2, hloc⟩ := mergeFold_sets tgt tr sfs sfs2 hnd hf k t hkt
        simp [locOf, lookupString, stringsOf, objFields, pyGet, alistLookup_set_self,
          he2, hloc, translatedUnit]
    | null =>
      rw [update_nonobj_strings dfs tr tgt (by rw [hS]; intro _ hc; exact Json.noConfusion hc)
        (by rintro rfl; exact absurd hkt (List.not_mem_nil _))] at h
      exact Option.noConfusion h
    | bool b =>
      rw [update_nonobj_strings dfs tr tgt (by rw [hS]; intro _ hc; exact Json.noConfusion hc)
        (by rintro rfl; exact absurd hkt (List.not_mem_nil _))] at h
      exact Option.noConfusion h
    | num n =>
      rw [update_nonobj_strings dfs tr tgt (by rw [hS]; intro _ hc; exact Json.noConfusion hc)
        (by rintro rfl; exact absurd hkt (List.not_mem_nil _))] at h
      exact Option.noConfusion h
    | str st =>
      rw [update_nonobj_strings dfs tr tgt (by rw [hS]; intro _ hc; exact Json.noConfusion hc)
        (by rintro rfl; exact absurd hkt (List.not_mem_nil _))] at h
      exact Option.noConfusion h
    | arr es =>
      rw [update_nonobj_strings dfs tr tgt (by rw [hS]; intro _ hc; exact Json.noConfusion hc)
        (by rintro rfl; exact absurd hkt (List.not_mem_nil _))] at h
      exact Option.noConfusion h
  | null => exact Option.noConfusion h
  | bool b => exact Option.noConfusion h
  | num n => exact Option.noConfusion h
  | str s => exact Option.noConfusion h
  | arr es => exact Option.noConfusion h

/-- Witness for claim C1 on a concrete document and translations mapping. -/
theorem update_localizations_sets_target_witness :
    locOf (.obj [("strings", .obj [("greet", .obj [("localizations",
        .obj [("fr", .obj [("stringUnit", .obj [("state", .str "translated"),
        ("value", .str "Bonjour")])])])])])]) "greet" "fr" =
      some (.obj [("stringUnit", .obj [("state", .str "translated"),
        ("value", .str "Bonjour")])]) :=
  update_localizations_sets_target (.obj [("strings", .obj [])])
    [("greet", .str "Bonjour")] "fr"
    (.obj [("strings", .obj [("greet", .obj [("localizations",
      .obj [("fr", .obj [("stringUnit", .obj [("state", .str "translated"),
      ("value", .str "Bonjour")])])])])])])
    (by simp) rfl "greet" (.str "Bonjour") (by simp)

theorem stringsOf_some (data : Json) (sfs : List (String × Json))
    (h : stringsOf data = some sfs) :
    ∃ dfs, data = .obj dfs ∧ pyGet dfs "strings" (.obj []) = .obj sfs := by
  cases data with
  | obj dfs =>
    replace h : objFields (pyGet dfs "strings" (.obj [])) = some sfs := h
    cases hv : pyGet dfs "strings" (.obj []) <;> rw [hv] at h <;> simp [objFields] at h
    exact ⟨dfs, rfl, by rw [hv, h]⟩
  | null => exact Option.noConfusion h
  | bool b => exact Option.noConfusion h
  | num n => exact Option.noConfusion h
  | str s => exact Option.noConfusion h
  | arr es => exact Option.noConfusion h

theorem stringsOf_set (dfs sfs2 : List (String × Json)) :
    stringsOf (.obj (alistSet dfs "strings" (.obj sfs2))) = some sfs2 := by
  simp [stringsOf, objFields, pyGet, alistLookup_set_self]

theorem update_dest (data : Json) (sfs : List (String × Json))
    (tr : List (String × Json)) (tgt : String) (data2 : Json)
    (hs : stringsOf data = some sfs)
    (h : update_localizations_for_language data tr tgt = some data2) :
    ∃ sfs2, mergeFold sfs tr tgt = some sfs2 ∧ stringsOf data2 = some sfs2 := by
  obtain ⟨dfs, rfl, hS⟩ := stringsOf_some data sfs hs
  rw [update_eq_of_strings_obj dfs sfs tr tgt hS] at h
  cases hf : mergeFold sfs tr tgt with
  | none => rw [hf] at h; exact Option.noConfusion h
  | some sfs2 =>
    rw [hf] at h
    have hd : data2 = .obj (alistSet dfs "strings" (.obj sfs2)) := (Option.some.inj h).symm
    subst hd
    exact ⟨sfs2, rfl, stringsOf_set dfs sfs2⟩

theorem update_nil (dfs : List (String × Json)) (tgt : String) :
    update_localizations_for_language (.obj dfs) [] tgt =
      some (.obj (alistSet dfs "strings" (pyGet dfs "strings" (.obj [])))) := by
  show updateStringsDict dfs [] tgt = _
  unfold updateStringsDict
  cases hv : pyGet dfs "strings" (.obj []) <;> rfl

theorem update_frame (data : Json) (tr : List (String × Json)) (tgt : String)
    (data2 : Json) (h : update_localizations_for_language data tr tgt = some data2)
    (k : String) (hk : k ∉ tr.map Prod.fst) :
    lookupString data2 k = lookupString data k := by
  cases data with
  | obj dfs =>
    cases hv : pyGet dfs "strings" (.obj []) with
    | obj sfs =>
      have hs : stringsOf (.obj dfs) = some sfs := by
        show objFields (pyGet dfs "strings" (.obj [])) = some sfs
        rw [hv]; rfl
      obtain ⟨sfs2, hf, hs2⟩ := update_dest _ sfs tr tgt data2 hs h
      simp [lookupString, hs, hs2, mergeFold_frame tgt tr sfs sfs2 hf k hk]
    | null =>
      cases tr with
      | nil =>
        rw [update_nil dfs tgt] at h
        have hd := (Option.some.inj h).symm
        subst hd
        simp [lookupString, stringsOf, objFields, pyGet, alistLookup_set_self, hv]
      | cons p r =>
        rw [update_nonobj_strings dfs (p :: r) tgt
          (by rw [hv]; intro _ hc; exact Json.noConfusion hc) (by simp)] at h
        exact Option.noConfusion h
    | bool b =>
      cases tr with
      | nil =>
        rw [update_nil dfs tgt] at h
        have hd := (Option.some.inj h).symm
        subst hd
        simp [lookupString, stringsOf, objFields, pyGet, alistLookup_set_self, hv]
      | cons p r =>
        rw [update_nonobj_strings dfs (p :: r) tgt
          (by rw [hv]; intro _ hc; exact Json.noConfusion hc) (by simp)] at h
        exact Option.noConfusion h
    | num n =>
      cases tr with
      | nil =>
        rw [update_nil dfs tgt] at h
        have hd := (Option.some.inj h).symm
        subst hd
        simp [lookupString, stringsOf, objFields, pyGet, alistLookup_set_self, hv]
      | cons p r =>
        rw [update_nonobj_strings dfs (p :: r) tgt
          (by rw [hv]; intro _ hc; exact Json.noConfusion hc) (by simp)] at h
        exact Option.noConfusion h
    | str st =>
      cases tr with
      | nil =>
        rw [update_nil dfs tgt] at h
        have hd := (Option.some.inj h).symm
        subst hd
        simp [lookupString, stringsOf, objFields, pyGet, alistLookup_set_self, hv]
      | cons p r =>
        rw [update_nonobj_strings dfs (p :: r) tgt
          (by rw [hv]; intro _ hc; exact Json.noConfusion hc) (by simp)] at h
        exact Option.noConfusion h
    | arr es =>
      cases tr with
      | nil =>
        rw [update_nil dfs tgt] at h
        have hd := (Option.some.inj h).symm
        subst hd
        simp [lookupString, stringsOf, objFields, pyGet, alistLookup_set_self, hv]
      | cons p r =>
        rw [update_nonobj_strings dfs (p :: r) tgt
          (by rw [hv]; intro _ hc; exact Json.noConfusion hc) (by simp)] at h
        exact Option.noConfusion h
  | null => exact Option.noConfusion h
  | bool b => exact Option.noConfusion h
  | num n => exact Option.noConfusion h
  | str s => exact Option.noConfusion h
  | arr es => exact Option.noConfusion h

/-! Zip truncation lemmas (the positional pairing of main). -/

theorem zip_map_fst_take {A B : Type} :
    ∀ (ks : List A) (rs : List B),
      (List.zip ks rs).map Prod.fst = ks.take (min ks.length rs.length) := by
  intro ks
  induction ks with
  | nil => intro rs; simp
  | cons k ks ih =>
    intro rs
    cases rs with
    | nil => simp
    | cons r rs =>
      simp only [List.zip_cons_cons, List.map_cons, List.length_cons,
        Nat.succ_min_succ, List.take_succ_cons, ih]

theorem zip_take_len {A B : Type} :
    ∀ (ks : List A) (rs : List B), List.zip ks rs = List.zip ks (rs.take ks.length) := by
  intro ks
  induction ks with
  | nil => intro rs; simp
  | cons k ks ih =>
    intro rs
    cases rs with
    | nil => simp
    | cons r rs =>
      simp only [List.length_cons, List.take_succ_cons, List.zip_cons_cons]
      rw [← ih]

/-- Claim C7: the merge pairs translator results with batch keys by
zip-style truncation.  When the result list is shorter, the trailing keys
are silently dropped: their entries are untouched by the merge (no
localization written, no error raised); symmetrically, result elements
beyond the batch length are ignored by the pairing. -/
theorem zip_truncation_pairing (data data2 : Json) (tgt : String) (ks : List String)
    (rs : List Json) (hnd : ks.Nodup)
    (h : update_localizations_for_language data (List.zip ks rs) tgt = some data2) :
    (List.zip ks rs).map Prod.fst = ks.take (min ks.length rs.length) ∧
    List.zip ks rs = List.zip ks (rs.take ks.length) ∧
    ∀ k ∈ ks.drop rs.length, lookupString data2 k = lookupString data k := by
  refine ⟨zip_map_fst_take ks rs, zip_take_len ks rs, ?_⟩
  intro k hkdrop
  apply update_frame data (List.zip ks rs) tgt data2 h k
  rw [zip_map_fst_take]
  intro hmem
  rcases Nat.le_total ks.length rs.length with hle | hle
  · rw [List.drop_eq_nil_of_le hle] at hkdrop
    exact absurd hkdrop (List.not_mem_nil k)
  · rw [Nat.min_eq_right hle] at hmem
    have hsplit : (ks.take rs.length ++ ks.drop rs.length).Nodup := by
      rw [List.take_append_drop]; exact hnd
    rw [List.nodup_append] at hsplit
    exact hsplit.2.2 hmem hkdrop

/-- Witness for claim C7: a two-key batch with an empty result list leaves
both entries untouched. -/
theorem zip_truncation_pairing_witness :
    (List.zip ["a", "b"] ([] : List Json)).map Prod.fst =
        ["a", "b"].take (min (["a", "b"] : List String).length
          (([] : List Json)).length) ∧
    List.zip ["a", "b"] ([] : List Json) =
        List.zip ["a", "b"] (([] : List Json).take (["a", "b"] : List String).length) ∧
    ∀ k ∈ (["a", "b"] : List String).drop ([] : List Json).length,
      lookupString (.obj [("strings", .obj [])]) k =
        lookupString (.obj [("strings", .obj [])]) k :=
  zip_truncation_pairing (.obj [("strings", .obj [])]) (.obj [("strings", .obj [])])
    "fr" ["a", "b"] [] (by simp) rfl

/-- Claim C6: for a non-empty pending list, the batch slicing of main
produces ceil(N/10) consecutive batches, every batch except possibly the
last holds exactly 10 keys, and the concatenation of the batches is the
pending list in its original selection order. -/
theorem batch_partitioning (pend : List (String × String)) (_h : pend ≠ []) :
    (pyChunks pend).length = (pend.length + 9) / 10 ∧
    (∀ i, i + 1 < (pyChunks pend).length → ((pyChunks pend).getD i []).length = 10) ∧
    (pyChunks pend).flatten = pend :=
  ⟨pyChunks_length pend.length pend (le_refl _),
   fun i hi => pyChunks_middle_len pend.length pend (le_refl _) i hi,
   pyChunks_join pend.length pend (le_refl _)⟩

/-- Witness for claim C6 on a 12-key pending list (2 batches). -/
theorem batch_partitioning_witness :
    (pyChunks (List.replicate 12 (("k", "t") : String × String))).length =
        ((List.replicate 12 (("k", "t") : String × String)).length + 9) / 10 ∧
    (∀ i, i + 1 < (pyChunks (List.replicate 12 (("k", "t") : String × String))).length →
      ((pyChunks (List.replicate 12 (("k", "t") : String × String))).getD i []).length
        = 10) ∧
    (pyChunks (List.replicate 12 (("k", "t") : String × String))).flatten =
      List.replicate 12 (("k", "t") : String × String) :=
  batch_partitioning (List.replicate 12 ("k", "t")) (by simp)

/-! Retry loop lemmas. -/

theorem retryLoop_bounds {E R : Type} (oracle : Nat → Except E R) :
    ∀ (rem attempt : Nat) (res : Except E R) (c s : Nat),
      retryLoop oracle rem attempt = some (res, c, s) →
      c ≤ rem ∧ s ≤ 3 * (rem - 1) := by
  intro rem
  induction rem with
  | zero => intro attempt res c s h; exact Option.noConfusion h
  | succ rem ih =>
    intro attempt res c s h
    simp only [retryLoop] at h
    cases ho : oracle attempt with
    | ok r =>
      rw [ho] at h
      simp at h
      omega
    | error e =>
      rw [ho] at h
      by_cases hrem : rem = 0
      · subst hrem
        simp at h
        omega
      · simp only [hrem, if_false] at h
        cases hr : retryLoop oracle rem (attempt + 1) with
        | none => rw [hr] at h; simp at h
        | some trip =>
          obtain ⟨res2, c2, s2⟩ := trip
          rw [hr] at h
          simp at h
          have := ih (attempt + 1) res2 c2 s2 hr
          omega

/-- Claim C4: translate_batch makes at most 3 invocation attempts with a
fixed 3-second backoff after each failed non-final attempt; a success on
any attempt stops the retrying, and when all 3 attempts fail the last
error propagates to the caller.  In particular a stub failing twice and
then succeeding yields exactly 3 invocations, a successful result, and 6
seconds of cumulative backoff. -/
theorem translate_batch_retry_policy :
    (∀ (E R : Type) (oracle : Nat → Except E R) (e0 e1 : E) (r : R),
      oracle 0 = .error e0 → oracle 1 = .error e1 → oracle 2 = .ok r →
      translate_batch_request oracle = some (.ok r, 3, 6)) ∧
    (∀ (E R : Type) (oracle : Nat → Except E R) (r : R),
      oracle 0 = .ok r → translate_batch_request oracle = some (.ok r, 1, 0)) ∧
    (∀ (E R : Type) (oracle : Nat → Except E R) (e0 : E) (r : R),
      oracle 0 = .error e0 → oracle 1 = .ok r →
      translate_batch_request oracle = some (.ok r, 2, 3)) ∧
    (∀ (E R : Type) (oracle : Nat → Except E R) (e0 e1 e2 : E),
      oracle 0 = .error e0 → oracle 1 = .error e1 → oracle 2 = .error e2 →
      translate_batch_request oracle = some (.error e2, 3, 6)) ∧
    (∀ (E R : Type) (oracle : Nat → Except E R) (res : Except E R) (c s : Nat),
      translate_batch_request oracle = some (res, c, s) → c ≤ 3 ∧ s ≤ 6) := by
  refine ⟨?_, ?_, ?_, ?_, ?_⟩
  · intro E R oracle e0 e1 r h0 h1 h2
    show retryLoop oracle 3 0 = _
    rw [show (3 : Nat) = 2 + 1 from rfl, retryLoop, h0]
    rw [show (2 : Nat) = 1 + 1 from rfl, retryLoop, h1]
    rw [retryLoop, h2]
    rfl
  · intro E R oracle r h0
    show retryLoop oracle 3 0 = _
    rw [show (3 : Nat) = 2 + 1 from rfl, retryLoop, h0]
  · intro E R oracle e0 r h0 h1
    show retryLoop oracle 3 0 = _
    rw [show (3 : Nat) = 2 + 1 from rfl, retryLoop, h0]
    rw [show (2 : Nat) = 1 + 1 from rfl, retryLoop, h1]
    rfl
  · intro E R oracle e0 e1 e2 h0 h1 h2
    show retryLoop oracle 3 0 = _
    rw [show (3 : Nat) = 2 + 1 from rfl, retryLoop, h0]
    rw [show (2 : Nat) = 1 + 1 from rfl, retryLoop, h1]
    rw [retryLoop, h2]
    rfl
  · intro E R oracle res c s h
    have := retryLoop_bounds oracle 3 0 res c s h
    omega

/-- Witness for claim C4: a stub failing twice then succeeding gives 3
invocations, success, and 6 seconds of backoff. -/
theorem translate_batch_retry_policy_witness :
    translate_batch_request (fun i => match i with
      | 0 => Except.error "boom0"
      | 1 => Except.error "boom1"
      | _ => Except.ok "done") = some (.ok "done", 3, 6) :=
  translate_batch_retry_policy.1 String String _ "boom0" "boom1" "done" rfl rfl rfl

/-! Fallback parser lemmas. -/

theorem String_mk_ne_empty (cs : List Char) (h : cs ≠ []) : String.mk cs ≠ "" := by
  intro he
  exact h (congrArg String.data he)

theorem splitOnceCore_two (cs : List Char) (a b : String)
    (h : splitOnceCore cs = [a, b]) : b ≠ "" := by
  cases cs with
  | nil => exact absurd h (by simp [splitOnceCore])
  | cons c t =>
    simp only [splitOnceCore] at h
    split at h
    · simp at h
    · rename_i hres
      simp only [List.cons.injEq, and_true] at h
      obtain ⟨h1, h2⟩ := h
      rw [← h2]
      apply String_mk_ne_empty
      simpa [List.isEmpty_iff] using hres

theorem pySplitOnce_two (s : String) (a b : String)
    (h : pySplitOnce s = [a, b]) : b ≠ "" :=
  splitOnceCore_two _ a b h

theorem stripOrdinal_ne (t : String) (h : t ≠ "") : stripOrdinal t ≠ "" := by
  unfold stripOrdinal
  cases hd : t.data with
  | nil => simpa using h
  | cons c0 rest =>
    cases rest with
    | nil => simpa using h
    | cons c1 rest2 =>
      simp only []
      split
      · split
        · rename_i a r heq
          exact pySplitOnce_two t a r heq
        · exact h
      · exact h

theorem fallbackLines_ne :
    ∀ (lines : List String) (t : String), t ∈ fallbackLines lines → t ≠ "" := by
  intro lines
  induction lines with
  | nil => intro t ht; simp [fallbackLines] at ht
  | cons l rest ih =>
    intro t ht
    simp only [fallbackLines] at ht
    split at ht
    · exact ih t ht
    · rename_i hne
      rcases List.mem_cons.mp ht with rfl | hmem
      · exact stripOrdinal_ne _ hne
      · exact ih t hmem

/-- Claim C5: when the response does not decode as JSON, or decodes to a
non-array value, translate_batch falls back to line-based recovery (split
into lines, strip, drop a leading single-digit ordinal, keep the
non-empty lines in order); on the input "1. Bonjour\n2) Salut\n" the
fallback yields exactly ["Bonjour", "Salut"]; the fallback is a total
function and never produces an empty line. -/
theorem fallback_line_recovery :
    (∀ (loads : String → Option Json) (raw : String),
      loads raw = none →
        parseTranslations loads raw = (fallbackParse raw).map Json.str) ∧
    (∀ (loads : String → Option Json) (raw : String) (j : Json),
      loads raw = some j → (∀ es, j ≠ .arr es) →
        parseTranslations loads raw = (fallbackParse raw).map Json.str) ∧
    fallbackParse "1. Bonjour\n2) Salut\n" = ["Bonjour", "Salut"] ∧
    (∀ (raw : String) (t : String), t ∈ fallbackParse raw → t ≠ "") := by
  refine ⟨?_, ?_, ?_, ?_⟩
  · intro loads raw h
    simp [parseTranslations, h]
  · intro loads raw j h hne
    cases j with
    | arr es => exact absurd rfl (hne es)
    | null => simp [parseTranslations, h]
    | bool b => simp [parseTranslations, h]
    | num n => simp [parseTranslations, h]
    | str st => simp [parseTranslations, h]
    | obj fs => simp [parseTranslations, h]
  · rfl
  · intro raw t ht
    exact fallbackLines_ne (pySplitlines raw) t ht

/-- Witness for claim C5 at the concrete input of the spec. -/
theorem fallback_line_recovery_witness :
    parseTranslations (fun _ => none) "1. Bonjour\n2) Salut\n" =
      (fallbackParse "1. Bonjour\n2) Salut\n").map Json.str :=
  fallback_line_recovery.1 (fun _ => none) "1. Bonjour\n2) Salut\n" rfl

/-- Claim C10: when the response text decodes as a JSON array, the strict
parse is accepted as is whatever the element types, the fallback running
only for non-array results; such non-string elements flow through
unchanged and are merged into the document as localization values. -/
theorem strict_array_parse_accepts_nonstrings :
    (∀ (loads : String → Option Json) (raw : String) (es : List Json),
      loads raw = some (.arr es) → parseTranslations loads raw = es) ∧
    update_localizations_for_language (.obj [("strings", .obj [("k", .obj [])])])
        [("k", .num 1)] "fr" =
      some (.obj [("strings", .obj [("k", .obj [("localizations",
        .obj [("fr", .obj [("stringUnit", .obj [("state", .str "translated"),
        ("value", .num 1)])])])])])]) := by
  refine ⟨?_, rfl⟩
  intro loads raw es h
  simp [parseTranslations, h]

/-- Witness for claim C10: a decoded array holding a number and null is
returned unchanged. -/
theorem strict_array_parse_accepts_nonstrings_witness :
    parseTranslations (fun _ => some (.arr [Json.num 1, Json.null])) "x" =
      [Json.num 1, Json.null] :=
  strict_array_parse_accepts_nonstrings.1 _ "x" [Json.num 1, Json.null] rfl

/-- Claim C8: parse_xcstrings fails exactly when the file read fails, the
content does not decode as JSON, or the decoded document is not a dict
holding a strings field (the three modes of the spec FormatError; in the
source the first is the uncaught read exception and the others are
ValueError); otherwise it returns the decoded document unchanged.  The
embedding consults the read outcome and the decoder once each: no retry
surrounds them. -/
theorem parse_xcstrings_format_errors (readRes : Except Unit String)
    (loads : String → Option Json) :
    ((∃ e, parse_xcstrings readRes loads = .error e) ↔
      (readRes = .error () ∨
       (∃ c, readRes = .ok c ∧ loads c = none) ∨
       (∃ c d, readRes = .ok c ∧ loads c = some d ∧ hasStringsField d = false))) ∧
    (∀ c d, readRes = .ok c → loads c = some d → hasStringsField d = true →
      parse_xcstrings readRes loads = .ok d) := by
  constructor
  · cases readRes with
    | error u =>
      cases u
      constructor
      · intro _
        exact Or.inl rfl
      · intro _
        exact ⟨.unreadable, rfl⟩
    | ok c =>
      cases hl : loads c with
      | none =>
        constructor
        · intro _
          exact Or.inr (Or.inl ⟨c, rfl, hl⟩)
        · intro _
          exact ⟨.notJson, by simp [parse_xcstrings, hl]⟩
      | some d0 =>
        by_cases hs : hasStringsField d0 = true
        · constructor
          · intro ⟨e, he⟩
            rw [show parse_xcstrings (.ok c) loads = .ok d0 by
              simp [parse_xcstrings, hl, hs]] at he
            exact Except.noConfusion he
          · intro hor
            rcases hor with hbad | ⟨c2, hc2, hl2⟩ | ⟨c2, d2, hc2, hl2, hs2⟩
            · exact Except.noConfusion hbad
            · rw [Except.ok.inj hc2] at hl
              rw [hl] at hl2
              exact Option.noConfusion hl2
            · rw [Except.ok.inj hc2] at hl
              rw [hl] at hl2
              rw [← Option.some.inj hl2] at hs2
              rw [hs] at hs2
              exact Bool.noConfusion hs2
        · constructor
          · intro _
            exact Or.inr (Or.inr ⟨c, d0, rfl, hl, Bool.of_not_eq_true hs⟩)
          · intro _
            exact ⟨.missingStrings, by simp [parse_xcstrings, hl, hs]⟩
  · intro c d h1 h2 h3
    subst h1
    simp [parse_xcstrings, h2, h3]

/-- Witness for claim C8: a valid read and decode of a dict holding a
strings field succeeds with the decoded document. -/
theorem parse_xcstrings_format_errors_witness :
    parse_xcstrings (.ok "doc") (fun _ => some (.obj [("strings", .obj [])])) =
      .ok (.obj [("strings", .obj [])]) :=
  (parse_xcstrings_format_errors (.ok "doc")
    (fun _ => some (.obj [("strings", .obj [])]))).2 "doc"
    (.obj [("strings", .obj [])]) rfl rfl rfl

/-! Bridging lemmas between get_source_text and the spec-side reading. -/

theorem specSourceValue_decomp (efs : List (String × Json)) (src : String) :
    specSourceValue (.obj efs) src =
      specLocsValue (pyGet efs "localizations" (.obj [])) src := by
  cases hl : alistLookup efs "localizations" with
  | none =>
    simp [specSourceValue, specLocsValue, pyGet, hl, alistLookup]
  | some lv =>
    cases lv with
    | obj lfs =>
      simp only [specSourceValue, specLocsValue, pyGet, hl, Option.getD_some]
      cases hsrc : alistLookup lfs src with
      | none => simp
      | some lu =>
        cases lu with
        | obj ufs =>
          cases hu : alistLookup ufs "stringUnit" with
          | none => simp [specUnitValue, pyGet, hu, alistLookup]
          | some su => cases su <;> simp [specUnitValue, pyGet, hu]
        | null => simp
        | bool b => simp
        | num n => simp
        | str st => simp
        | arr es => simp
    | null => simp [specSourceValue, specLocsValue, pyGet, hl]
    | bool b => simp [specSourceValue, specLocsValue, pyGet, hl]
    | num n => simp [specSourceValue, specLocsValue, pyGet, hl]
    | str st => simp [specSourceValue, specLocsValue, pyGet, hl]
    | arr es => simp [specSourceValue, specLocsValue, pyGet, hl]

theorem sourceFromUnit_spec (key : String) (su : Json) (r : String)
    (h : sourceFromUnit key su = some r) :
    (∃ v, specUnitValue su = some v ∧ r = v) ∨
    (specUnitValue su = none ∧ r = key) := by
  cases su with
  | obj sfs =>
    cases hv : alistLookup sfs "value" with
    | none =>
      simp [sourceFromUnit, pyIn, hv] at h
      right
      exact ⟨by simp [specUnitValue, hv], h.symm⟩
    | some v =>
      cases v with
      | str sv =>
        simp only [sourceFromUnit, pyIn, pyIndexStr, hv, Option.isSome_some] at h
        by_cases hb : pyStrip sv = ""
        · rw [if_pos hb] at h
          right
          exact ⟨by simp [specUnitValue, hv, hb], (Option.some.inj h).symm⟩
        · rw [if_neg hb] at h
          left
          exact ⟨sv, by simp [specUnitValue, hv, hb], (Option.some.inj h).symm⟩
      | null => simp [sourceFromUnit, pyIn, pyIndexStr, hv] at h
      | bool b => simp [sourceFromUnit, pyIn, pyIndexStr, hv] at h
      | num n => simp [sourceFromUnit, pyIn, pyIndexStr, hv] at h
      | arr es => simp [sourceFromUnit, pyIn, pyIndexStr, hv] at h
      | obj fs2 => simp [sourceFromUnit, pyIn, pyIndexStr, hv] at h
  | str st =>
    obtain ⟨b, hb⟩ : ∃ b, pyIn "value" (Json.str st) = some b := ⟨_, rfl⟩
    cases b with
    | false =>
      simp [sourceFromUnit, hb] at h
      right
      exact ⟨rfl, h.symm⟩
    | true => simp [sourceFromUnit, hb, pyIndexStr] at h
  | arr es =>
    obtain ⟨b, hb⟩ : ∃ b, pyIn "value" (Json.arr es) = some b := ⟨_, rfl⟩
    cases b with
    | false =>
      simp [sourceFromUnit, hb] at h
      right
      exact ⟨rfl, h.symm⟩
    | true => simp [sourceFromUnit, hb, pyIndexStr] at h
  | null => simp [sourceFromUnit, pyIn] at h
  | bool b => simp [sourceFromUnit, pyIn] at h
  | num n => simp [sourceFromUnit, pyIn] at h

theorem sourceFromLocs_spec (key : String) (locs : Json) (src : String) (r : String)
    (h : sourceFromLocs key locs src = some r) :
    (∃ v, specLocsValue locs src = some v ∧ r = v) ∨
    (specLocsValue locs src = none ∧ r = key) := by
  cases locs with
  | obj lfs =>
    cases hsrc : alistLookup lfs src with
    | none =>
      simp [sourceFromLocs, pyIn, hsrc] at h
      right
      exact ⟨by simp [specLocsValue, hsrc], h.symm⟩
    | some lu =>
      cases lu with
      | obj ufs =>
        have h2 : sourceFromUnit key (pyGet ufs "stringUnit" (.obj [])) = some r := by
          simpa [sourceFromLocs, pyIn, pyIndexStr, hsrc] using h
        have h3 := sourceFromUnit_spec key (pyGet ufs "stringUnit" (.obj [])) r h2
        simpa [specLocsValue, hsrc] using h3
      | null =>
        simp [sourceFromLocs, pyIn, pyIndexStr, hsrc] at h
        right
        exact ⟨by simp [specLocsValue, hsrc], h.symm⟩
      | bool b =>
        simp [sourceFromLocs, pyIn, pyIndexStr, hsrc] at h
        right
        exact ⟨by simp [specLocsValue, hsrc], h.symm⟩
      | num n =>
        simp [sourceFromLocs, pyIn, pyIndexStr, hsrc] at h
        right
        exact ⟨by simp [specLocsValue, hsrc], h.symm⟩
      | str st =>
        simp [sourceFromLocs, pyIn, pyIndexStr, hsrc] at h
        right
        exact ⟨by simp [specLocsValue, hsrc], h.symm⟩
      | arr es2 =>
        simp [sourceFromLocs, pyIn, pyIndexStr, hsrc] at h
        right
        exact ⟨by simp [specLocsValue, hsrc], h.symm⟩
  | str st =>
    obtain ⟨b, hb⟩ : ∃ b, pyIn src (Json.str st) = some b := ⟨_, rfl⟩
    cases b with
    | false =>
      simp [sourceFromLocs, hb] at h
      right
      exact ⟨rfl, h.symm⟩
    | true => simp [sourceFromLocs, hb, pyIndexStr] at h
  | arr es =>
    obtain ⟨b, hb⟩ : ∃ b, pyIn src (Json.arr es) = some b := ⟨_, rfl⟩
    cases b with
    | false =>
      simp [sourceFromLocs, hb] at h
      right
      exact ⟨rfl, h.symm⟩
    | true => simp [sourceFromLocs, hb, pyIndexStr] at h
  | null => simp [sourceFromLocs, pyIn] at h
  | bool b => simp [sourceFromLocs, pyIn] at h
  | num n => simp [sourceFromLocs, pyIn] at h

/-- Claim C9: whenever get_source_text returns (the malformed-entry paths
that raise in the source are excluded by the hypothesis), the result is
the source-language stringUnit value when that value exists as a non-blank
string, and the key itself in every other case. -/
theorem get_source_text_spec (key : String) (entry : Json) (src : String) (r : String)
    (h : get_source_text key entry src = some r) :
    (∃ v, specSourceValue entry src = some v ∧ r = v) ∨
    (specSourceValue entry src = none ∧ r = key) := by
  cases entry with
  | obj efs =>
    rw [specSourceValue_decomp efs src]
    exact sourceFromLocs_spec key _ src r h
  | null => right; exact ⟨rfl, (Option.some.inj h).symm⟩
  | bool b => right; exact ⟨rfl, (Option.some.inj h).symm⟩
  | num n => right; exact ⟨rfl, (Option.some.inj h).symm⟩
  | str st => right; exact ⟨rfl, (Option.some.inj h).symm⟩
  | arr es => right; exact ⟨rfl, (Option.some.inj h).symm⟩

/-- Witness for claim C9 on an entry holding a non-blank source value. -/
theorem get_source_text_spec_witness :
    (∃ v, specSourceValue (.obj [("localizations", .obj [("en", .obj [("stringUnit",
        .obj [("value", .str "Hello")])])])]) "en" = some v ∧ "Hello" = v) ∨
    (specSourceValue (.obj [("localizations", .obj [("en", .obj [("stringUnit",
        .obj [("value", .str "Hello")])])])]) "en" = none ∧ "Hello" = "greet") :=
  get_source_text_spec "greet" (.obj [("localizations", .obj [("en",
    .obj [("stringUnit", .obj [("value", .str "Hello")])])])]) "en" "Hello" rfl

/-! Selection lemmas. -/

theorem selectPending_sub (src tgt : String) :
    ∀ (sfs : List (String × Json)) (pend : List (String × String)),
      selectPending sfs src tgt = some pend →
      ∀ k, k ∈ pend.map Prod.fst → k ∈ sfs.map Prod.fst := by
  intro sfs
  induction sfs with
  | nil =>
    intro pend h k hk
    have hp : ([] : List (String × String)) = pend := Option.some.inj h
    rw [← hp] at hk
    simp at hk
  | cons p rest ih =>
    obtain ⟨k0, e0⟩ := p
    intro pend h k hk
    simp only [selectPending] at h
    split at h
    · simp only [List.map_cons]
      exact List.mem_cons_of_mem _ (ih pend h k hk)
    · split at h
      · exact Option.noConfusion h
      · simp only [List.map_cons]
        exact List.mem_cons_of_mem _ (ih pend h k hk)
      · split at h
        · exact Option.noConfusion h
        · split at h
          · exact Option.noConfusion h
          · rename_i t hgst ps hps
            rw [← Option.some.inj h] at hk
            simp only [List.map_cons] at hk ⊢
            rcases List.mem_cons.mp hk with heq | hmem
            · exact heq ▸ List.mem_cons_self _ _
            · exact List.mem_cons_of_mem _ (ih ps hps k hmem)

theorem select_skips (src tgt : String) :
    ∀ (sfs : List (String × Json)) (pend : List (String × String)) (k : String) (e : Json),
      (sfs.map Prod.fst).Nodup → alistLookup sfs k = some e →
      (shouldTranslateFalse e = true ∨ skipExistingTranslated e tgt = some true) →
      selectPending sfs src tgt = some pend →
      k ∉ pend.map Prod.fst := by
  intro sfs
  induction sfs with
  | nil =>
    intro pend k e _ hk
    exact absurd hk (by simp [alistLookup])
  | cons p rest ih =>
    obtain ⟨k0, e0⟩ := p
    intro pend k e hnd hk hskip hsel
    rw [List.map_cons] at hnd
    have hnd2 := List.nodup_cons.mp hnd
    by_cases hkk : k0 = k
    · subst hkk
      have he : e0 = e := by simpa [alistLookup] using hk
      subst he
      intro hmem
      simp only [selectPending] at hsel
      rcases hskip with hst | hsk
      · rw [if_pos hst] at hsel
        exact hnd2.1 (selectPending_sub src tgt rest pend hsel k0 hmem)
      · by_cases hst : shouldTranslateFalse e0 = true
        · rw [if_pos hst] at hsel
          exact hnd2.1 (selectPending_sub src tgt rest pend hsel k0 hmem)
        · rw [if_neg hst, hsk] at hsel
          exact hnd2.1 (selectPending_sub src tgt rest pend hsel k0 hmem)
    · have hk2 : alistLookup rest k = some e := by
        simpa [alistLookup, hkk] using hk
      simp only [selectPending] at hsel
      split at hsel
      · exact ih pend k e hnd2.2 hk2 hskip hsel
      · split at hsel
        · exact Option.noConfusion hsel
        · exact ih pend k e hnd2.2 hk2 hskip hsel
        · split at hsel
          · exact Option.noConfusion hsel
          · split at hsel
            · exact Option.noConfusion hsel
            · rename_i t hgst ps hps
              rw [← Option.some.inj hsel]
              simp only [List.map_cons]
              intro hmem
              rcases List.mem_cons.mp hmem with heq | hmem2
              · exact hkk heq.symm
              · exact ih ps k e hnd2.2 hk2 hskip hps hmem2

theorem pyChunks_mem_sub {α : Type} (l : List α) (b : List α) (hb : b ∈ pyChunks l) :
    ∀ x ∈ b, x ∈ l := by
  intro x hx
  have hj : (pyChunks l).flatten = l := pyChunks_join l.length l (le_refl _)
  rw [← hj]
  exact List.mem_flatten.mpr ⟨b, hb, hx⟩

theorem zipKeys_sub (b : List (String × String)) (rs : List Json) (k : String)
    (hk : k ∈ (zipKeys b rs).map Prod.fst) : k ∈ b.map Prod.fst := by
  rw [zipKeys, zip_map_fst_take] at hk
  exact List.take_subset _ _ hk

/-! Run-level preservation lemmas. -/

theorem runBatches_entry_frame (tgt : String)
    (translator : List String → Option (List Json)) :
    ∀ (batches : List (List (String × String))) (data d2 : Json)
      (sfs : List (String × Json)) (k : String),
      stringsOf data = some sfs → (sfs.map Prod.fst).Nodup →
      runBatches tgt translator batches data = some d2 →
      (∀ b ∈ batches, k ∉ b.map Prod.fst) →
      ∃ sfs2, stringsOf d2 = some sfs2 ∧ (sfs2.map Prod.fst).Nodup ∧
        alistLookup sfs2 k = alistLookup sfs k := by
  intro batches
  induction batches with
  | nil =>
    intro data d2 sfs k hs hnd hrun _
    have hd : data = d2 := Option.some.inj hrun
    subst hd
    exact ⟨sfs, hs, hnd, rfl⟩
  | cons b rest ih =>
    intro data d2 sfs k hs hnd hrun hnb
    simp only [runBatches] at hrun
    split at hrun
    · exact Option.noConfusion hrun
    · rename_i results ht
      split at hrun
      · exact Option.noConfusion hrun
      · rename_i dmid hu
        obtain ⟨sfsMid, hfM, hsM⟩ :=
          update_dest data sfs (zipKeys b results) tgt dmid hs hu
        have hndM := mergeFold_nodup tgt (zipKeys b results) sfs sfsMid hfM hnd
        have hkM : alistLookup sfsMid k = alistLookup sfs k := by
          apply mergeFold_frame tgt (zipKeys b results) sfs sfsMid hfM k
          intro hmem
          exact hnb b (List.mem_cons_self _ _) (zipKeys_sub b results k hmem)
        obtain ⟨sfs2, h1, h2, h3⟩ := ih dmid d2 sfsMid k hsM hndM hrun
          (fun b2 hb2 => hnb b2 (List.mem_cons_of_mem _ hb2))
        exact ⟨sfs2, h1, h2, by rw [h3, hkM]⟩

theorem runLanguageCore_eq (src : String)
    (translator : List String → Option (List Json))
    (dfs sfs : List (String × Json)) (tgt : String)
    (hS : pyGet dfs "strings" (.obj []) = .obj sfs) :
    runLanguageCore src translator dfs tgt =
      match selectPending sfs src tgt with
      | none => none
      | some pend =>
        if pend.isEmpty then some (.obj dfs)
        else runBatches tgt translator (pyChunks pend) (.obj dfs) := by
  unfold runLanguageCore
  rw [hS]

theorem runLanguage_pres2 (src : String)
    (translator : List String → Option (List Json)) (data : Json) (tgt : String)
    (d2 : Json) (sfs : List (String × Json)) (k : String) (e : Json)
    (hs : stringsOf data = some sfs) (hnd : (sfs.map Prod.fst).Nodup)
    (hk : alistLookup sfs k = some e) (hst : shouldTranslateFalse e = true)
    (hrun : runLanguage src translator data tgt = some d2) :
    ∃ sfs2, stringsOf d2 = some sfs2 ∧ (sfs2.map Prod.fst).Nodup ∧
      alistLookup sfs2 k = some e := by
  unfold runLanguage at hrun
  by_cases htgt : tgt = src
  · rw [if_pos htgt] at hrun
    have hd : data = d2 := Option.some.inj hrun
    subst hd
    exact ⟨sfs, hs, hnd, hk⟩
  · rw [if_neg htgt] at hrun
    obtain ⟨dfs, rfl, hS⟩ := stringsOf_some data sfs hs
    replace hrun : runLanguageCore src translator dfs tgt = some d2 := hrun
    rw [runLanguageCore_eq src translator dfs sfs tgt hS] at hrun
    split at hrun
    · exact Option.noConfusion hrun
    · rename_i pend hsel
      split at hrun
      · have hd : Json.obj dfs = d2 := Option.some.inj hrun
        subst hd
        exact ⟨sfs, hs, hnd, hk⟩
      · have hnot : k ∉ pend.map Prod.fst :=
          select_skips src tgt sfs pend k e hnd hk (Or.inl hst) hsel
        have hnb : ∀ b ∈ pyChunks pend, k ∉ b.map Prod.fst := by
          intro b hb hmem
          obtain ⟨pr, hpr, hfst⟩ := List.mem_map.mp hmem
          exact hnot (List.mem_map.mpr
            ⟨pr, pyChunks_mem_sub pend b hb pr hpr, hfst⟩)
        obtain ⟨sfs2, h1, h2, h3⟩ := runBatches_entry_frame tgt translator
          (pyChunks pend) (.obj dfs) d2 sfs k hs hnd hrun hnb
        exact ⟨sfs2, h1, h2, by rw [h3, hk]⟩

theorem runLangs_pres2 (src : String)
    (translator : String → List String → Option (List Json)) :
    ∀ (langs : List String) (data d2 : Json) (sfs : List (String × Json))
      (k : String) (e : Json),
      stringsOf data = some sfs → (sfs.map Prod.fst).Nodup →
      alistLookup sfs k = some e → shouldTranslateFalse e = true →
      runLangs src translator langs data = some d2 →
      ∃ sfs2, stringsOf d2 = some sfs2 ∧ (sfs2.map Prod.fst).Nodup ∧
        alistLookup sfs2 k = some e := by
  intro langs
  induction langs with
  | nil =>
    intro data d2 sfs k e hs hnd hk _ hrun
    have hd : data = d2 := Option.some.inj hrun
    subst hd
    exact ⟨sfs, hs, hnd, hk⟩
  | cons tgt rest ih =>
    intro data d2 sfs k e hs hnd hk hst hrun
    simp only [runLangs] at hrun
    split at hrun
    · exact Option.noConfusion hrun
    · rename_i dmid hr1
      obtain ⟨sfsMid, h1, h2, h3⟩ := runLanguage_pres2 src (translator tgt)
        data tgt dmid sfs k e hs hnd hk hst hr1
      exact ih dmid d2 sfsMid k e h1 h2 h3 hst hrun

/-- Claim C2: an entry whose shouldTranslate field is explicitly false is
never selected for translation (for any target language) and is left
entirely unchanged by a completed run, whatever the requested target
languages and whatever the translation service returns. -/
theorem shouldTranslate_false_entries_untouched (data : Json) (src : String)
    (langs : List String) (translator : String → List String → Option (List Json))
    (k : String) (e : Json) (data2 : Json) (sfs : List (String × Json))
    (hs : stringsOf data = some sfs) (hnd : (sfs.map Prod.fst).Nodup)
    (hk : alistLookup sfs k = some e) (hst : shouldTranslateFalse e = true)
    (hrun : runAll data src langs translator = some data2) :
    (∀ tgt pend, selectPending sfs src tgt = some pend → k ∉ pend.map Prod.fst) ∧
    lookupString data2 k = some e := by
  constructor
  · intro tgt pend hsel
    exact select_skips src tgt sfs pend k e hnd hk (Or.inl hst) hsel
  · obtain ⟨dfs, rfl, hS⟩ := stringsOf_some data sfs hs
    replace hrun : runLangs src translator langs (.obj dfs) = some data2 := hrun
    obtain ⟨sfs2, h1, h2, h3⟩ := runLangs_pres2 src translator langs (.obj dfs)
      data2 sfs k e hs hnd hk hst hrun
    simp [lookupString, h1, h3]

/-- Witness for claim C2: a one-entry document with shouldTranslate false
is unchanged by a run over one target language. -/
theorem shouldTranslate_false_entries_untouched_witness :
    (∀ tgt pend, selectPending [("a", Json.obj [("shouldTranslate", Json.bool false)])]
        "en" tgt = some pend → "a" ∉ pend.map Prod.fst) ∧
    lookupString (.obj [("strings", .obj [("a", Json.obj [("shouldTranslate",
        Json.bool false)])])]) "a" = some (Json.obj [("shouldTranslate", Json.bool false)]) :=
  shouldTranslate_false_entries_untouched
    (.obj [("strings", .obj [("a", Json.obj [("shouldTranslate", Json.bool false)])])])
    "en" ["fr"] (fun _ _ => some [])
    "a" (Json.obj [("shouldTranslate", Json.bool false)])
    (.obj [("strings", .obj [("a", Json.obj [("shouldTranslate", Json.bool false)])])])
    [("a", Json.obj [("shouldTranslate", Json.bool false)])]
    rfl (by simp) rfl rfl rfl

/-! Target-value preservation lemmas. -/

theorem entryTargetValue_dest (e : Json) (tgt : String) (sv : String)
    (h : entryTargetValue e tgt = some sv) :
    ∃ efs lfs ufs su, e = .obj efs ∧
      pyGet efs "localizations" (.obj []) = .obj lfs ∧
      alistLookup lfs tgt = some (.obj ufs) ∧
      pyGet ufs "stringUnit" (.obj []) = .obj su ∧
      pyGet su "value" (.str "") = .str sv := by
  cases e with
  | obj efs =>
    replace h : entryTargetValueLocs (pyGet efs "localizations" (.obj [])) tgt
        = some sv := h
    unfold entryTargetValueLocs at h
    split at h
    · rename_i lfs hloc
      split at h
      · rename_i ufs hl
        unfold entryTargetValueUnit at h
        split at h
        · rename_i su hu
          split at h
          · rename_i sv2 hval
            exact ⟨efs, lfs, ufs, su, rfl, hloc, hl,
              hu, by rw [hval, Option.some.inj h]⟩
          · exact Option.noConfusion h
        · exact Option.noConfusion h
      · exact Option.noConfusion h
    · exact Option.noConfusion h
  | null => exact Option.noConfusion h
  | bool b => exact Option.noConfusion h
  | num n => exact Option.noConfusion h
  | str st => exact Option.noConfusion h
  | arr es => exact Option.noConfusion h

theorem entryTargetValue_skip (e : Json) (tgt : String) (sv : String)
    (h : entryTargetValue e tgt = some sv) (hb : pyStrip sv ≠ "") :
    skipExistingTranslated e tgt = some true := by
  obtain ⟨efs, lfs, ufs, su, rfl, hloc, hl, hu, hval⟩ :=
    entryTargetValue_dest e tgt sv h
  show skipFromLocs (pyGet efs "localizations" (.obj [])) tgt = some true
  rw [hloc]
  simp [skipFromLocs, pyIn, hl, pyIndexStr, hu, skipFromUnit, hval, hb]

theorem mergeOne_pres_ETV (s : List (String × Json)) (kk : String) (t : Json)
    (tgt tgt0 : String) (hne : tgt ≠ tgt0) (s1 : List (String × Json))
    (hm : mergeOne s kk t tgt = some s1) (k : String) (e : Json) (sv : String)
    (hk : alistLookup s k = some e) (hv : entryTargetValue e tgt0 = some sv) :
    ∃ e1, alistLookup s1 k = some e1 ∧ entryTargetValue e1 tgt0 = some sv := by
  by_cases hkk : kk = k
  · subst hkk
    obtain ⟨efs0, lfs0, ufs0, su0, rfl, hloc, hl, hu, hval⟩ :=
      entryTargetValue_dest e tgt0 sv hv
    have hef : entryFieldsOf s kk = efs0 := by simp [entryFieldsOf, hk]
    unfold mergeOne at hm
    rw [hef, hloc] at hm
    have hs1 : s1 = alistSet s kk
        (.obj (alistSet efs0 "localizations"
          (.obj (alistSet lfs0 tgt (translatedUnit t))))) :=
      (Option.some.inj hm).symm
    subst hs1
    refine ⟨_, alistLookup_set_self _ _ _, ?_⟩
    show entryTargetValueLocs
      (pyGet (alistSet efs0 "localizations"
        (.obj (alistSet lfs0 tgt (translatedUnit t)))) "localizations" (.obj [])) tgt0
      = some sv
    rw [show pyGet (alistSet efs0 "localizations"
        (.obj (alistSet lfs0 tgt (translatedUnit t)))) "localizations" (.obj [])
        = .obj (alistSet lfs0 tgt (translatedUnit t)) by
      simp [pyGet, alistLookup_set_self]]
    simp [entryTargetValueLocs, alistLookup_set_ne lfs0 tgt tgt0 _ (Ne.symm hne),
      hl, hu, entryTargetValueUnit, hval]
  · refine ⟨e, ?_, hv⟩
    rw [mergeOne_lookup_ne s kk t tgt s1 hm k (fun hc => hkk hc.symm)]
    exact hk

theorem mergeFold_pres_ETV (tgt tgt0 : String) (hne : tgt ≠ tgt0) :
    ∀ (tr : List (String × Json)) (s s2 : List (String × Json)) (k : String)
      (e : Json) (sv : String),
      mergeFold s tr tgt = some s2 → alistLookup s k = some e →
      entryTargetValue e tgt0 = some sv →
      ∃ e2, alistLookup s2 k = some e2 ∧ entryTargetValue e2 tgt0 = some sv := by
  intro tr
  induction tr with
  | nil =>
    intro s s2 k e sv h hk hv
    have hd : s = s2 := Option.some.inj h
    subst hd
    exact ⟨e, hk, hv⟩
  | cons p rest ih =>
    obtain ⟨k0, t0⟩ := p
    intro s s2 k e sv h hk hv
    simp only [mergeFold] at h
    split at h
    · exact Option.noConfusion h
    · rename_i s1 hm
      obtain ⟨e1, hk1, hv1⟩ :=
        mergeOne_pres_ETV s k0 t0 tgt tgt0 hne s1 hm k e sv hk hv
      exact ih s1 s2 k e1 sv h hk1 hv1

theorem runBatches_pres_ETV (tgt tgt0 : String) (hne : tgt ≠ tgt0)
    (translator : List String → Option (List Json)) :
    ∀ (batches : List (List (String × String))) (data d2 : Json)
      (sfs : List (String × Json)) (k : String) (e : Json) (sv : String),
      stringsOf data = some sfs → (sfs.map Prod.fst).Nodup →
      runBatches tgt translator batches data = some d2 →
      alistLookup sfs k = some e → entryTargetValue e tgt0 = some sv →
      ∃ sfs2 e2, stringsOf d2 = some sfs2 ∧ (sfs2.map Prod.fst).Nodup ∧
        alistLookup sfs2 k = some e2 ∧ entryTargetValue e2 tgt0 = some sv := by
  intro batches
  induction batches with
  | nil =>
    intro data d2 sfs k e sv hs hnd hrun hk hv
    have hd : data = d2 := Option.some.inj hrun
    subst hd
    exact ⟨sfs, e, hs, hnd, hk, hv⟩
  | cons b rest ih =>
    intro data d2 sfs k e sv hs hnd hrun hk hv
    simp only [runBatches] at hrun
    split at hrun
    · exact Option.noConfusion hrun
    · rename_i results ht
      split at hrun
      · exact Option.noConfusion hrun
      · rename_i dmid hu
        obtain ⟨sfsMid, hfM, hsM⟩ :=
          update_dest data sfs (zipKeys b results) tgt dmid hs hu
        have hndM := mergeFold_nodup tgt (zipKeys b results) sfs sfsMid hfM hnd
        obtain ⟨e1, hk1, hv1⟩ := mergeFold_pres_ETV tgt tgt0 hne
          (zipKeys b results) sfs sfsMid k e sv hfM hk hv
        exact ih dmid d2 sfsMid k e1 sv hsM hndM hrun hk1 hv1

theorem runLanguage_pres3 (src : String)
    (translator : List String → Option (List Json)) (data : Json)
    (tgt tgt0 : String) (d2 : Json) (sfs : List (String × Json)) (k : String)
    (e : Json) (sv : String)
    (hs : stringsOf data = some sfs) (hnd : (sfs.map Prod.fst).Nodup)
    (hk : alistLookup sfs k = some e)
    (hv : entryTargetValue e tgt0 = some sv) (hb : pyStrip sv ≠ "")
    (hrun : runLanguage src translator data tgt = some d2) :
    ∃ sfs2 e2, stringsOf d2 = some sfs2 ∧ (sfs2.map Prod.fst).Nodup ∧
      alistLookup sfs2 k = some e2 ∧ entryTargetValue e2 tgt0 = some sv := by
  unfold runLanguage at hrun
  by_cases htgt : tgt = src
  · rw [if_pos htgt] at hrun
    have hd : data = d2 := Option.some.inj hrun
    subst hd
    exact ⟨sfs, e, hs, hnd, hk, hv⟩
  · rw [if_neg htgt] at hrun
    obtain ⟨dfs, rfl, hS⟩ := stringsOf_some data sfs hs
    replace hrun : runLanguageCore src translator dfs tgt = some d2 := hrun
    rw [runLanguageCore_eq src translator dfs sfs tgt hS] at hrun
    split at hrun
    · exact Option.noConfusion hrun
    · rename_i pend hsel
      split at hrun
      · have hd : Json.obj dfs = d2 := Option.some.inj hrun
        subst hd
        exact ⟨sfs, e, hs, hnd, hk, hv⟩
      · by_cases htt : tgt = tgt0
        · subst htt
          have hskip := entryTargetValue_skip e tgt sv hv hb
          have hnot : k ∉ pend.map Prod.fst :=
            select_skips src tgt sfs pend k e hnd hk (Or.inr hskip) hsel
          have hnb : ∀ b ∈ pyChunks pend, k ∉ b.map Prod.fst := by
            intro b hb2 hmem
            obtain ⟨pr, hpr, hfst⟩ := List.mem_map.mp hmem
            exact hnot (List.mem_map.mpr
              ⟨pr, pyChunks_mem_sub pend b hb2 pr hpr, hfst⟩)
          obtain ⟨sfs2, h1, h2, h3⟩ := runBatches_entry_frame tgt translator
            (pyChunks pend) (.obj dfs) d2 sfs k hs hnd hrun hnb
          exact ⟨sfs2, e, h1, h2, by rw [h3, hk], hv⟩
        · exact runBatches_pres_ETV tgt tgt0 htt translator (pyChunks pend)
            (.obj dfs) d2 sfs k e sv hs hnd hrun hk hv

theorem runLangs_pres3 (src : String)
    (translator : String → List String → Option (List Json)) (tgt0 : String) :
    ∀ (langs : List String) (data d2 : Json) (sfs : List (String × Json))
      (k : String) (e : Json) (sv : String),
      stringsOf data = some sfs → (sfs.map Prod.fst).Nodup →
      alistLookup sfs k = some e → entryTargetValue e tgt0 = some sv →
      pyStrip sv ≠ "" →
      runLangs src translator langs data = some d2 →
      ∃ sfs2 e2, stringsOf d2 = some sfs2 ∧ (sfs2.map Prod.fst).Nodup ∧
        alistLookup sfs2 k = some e2 ∧ entryTargetValue e2 tgt0 = some sv := by
  intro langs
  induction langs with
  | nil =>
    intro data d2 sfs k e sv hs hnd hk hv _ hrun
    have hd : data = d2 := Option.some.inj hrun
    subst hd
    exact ⟨sfs, e, hs, hnd, hk, hv⟩
  | cons tgt rest ih =>
    intro data d2 sfs k e sv hs hnd hk hv hb hrun
    simp only [runLangs] at hrun
    split at hrun
    · exact Option.noConfusion hrun
    · rename_i dmid hr1
      obtain ⟨sfsMid, e1, h1, h2, h3, h4⟩ := runLanguage_pres3 src
        (translator tgt) data tgt tgt0 dmid sfs k e sv hs hnd hk hv hb hr1
      exact ih dmid d2 sfsMid k e1 sv h1 h2 h3 h4 hb hrun

/-- Claim C3: an entry already holding a non-blank value for a target
language is not selected when a run targets that language again, and after
any completed run the entry still holds exactly that value for the
language (skipping already-translated entries is idempotent; other target
languages may add their own localizations without touching this one). -/
theorem already_translated_skip_idempotent (data : Json) (src : String)
    (langs : List String) (translator : String → List String → Option (List Json))
    (k tgt : String) (e : Json) (sv : String) (data2 : Json)
    (sfs : List (String × Json))
    (hs : stringsOf data = some sfs) (hnd : (sfs.map Prod.fst).Nodup)
    (hk : alistLookup sfs k = some e)
    (hv : entryTargetValue e tgt = some sv) (hb : pyStrip sv ≠ "")
    (hrun : runAll data src langs translator = some data2) :
    (∀ pend, selectPending sfs src tgt = some pend → k ∉ pend.map Prod.fst) ∧
    (∃ e2, lookupString data2 k = some e2 ∧ entryTargetValue e2 tgt = some sv) := by
  constructor
  · intro pend hsel
    exact select_skips src tgt sfs pend k e hnd hk
      (Or.inr (entryTargetValue_skip e tgt sv hv hb)) hsel
  · obtain ⟨dfs, rfl, hS⟩ := stringsOf_some data sfs hs
    replace hrun : runLangs src translator langs (.obj dfs) = some data2 := hrun
    obtain ⟨sfs2, e2, h1, h2, h3, h4⟩ := runLangs_pres3 src translator tgt langs
      (.obj dfs) data2 sfs k e sv hs hnd hk hv hb hrun
    exact ⟨e2, by simp [lookupString, h1, h3], h4⟩

/-- Witness for claim C3: a rerun over the same target language leaves the
existing French value in place. -/
theorem already_translated_skip_idempotent_witness :
    (∀ pend, selectPending [("a", Json.obj [("localizations", Json.obj [("fr",
        Json.obj [("stringUnit", Json.obj [("value", Json.str "Salut")])])])])]
        "en" "fr" = some pend → "a" ∉ pend.map Prod.fst) ∧
    (∃ e2, lookupString (.obj [("strings", .obj [("a", Json.obj [("localizations",
        Json.obj [("fr", Json.obj [("stringUnit", Json.obj [("value",
        Json.str "Salut")])])])])])]) "a" = some e2 ∧
      entryTargetValue e2 "fr" = some "Salut") :=
  already_translated_skip_idempotent
    (.obj [("strings", .obj [("a", Json.obj [("localizations", Json.obj [("fr",
      Json.obj [("stringUnit", Json.obj [("value", Json.str "Salut")])])])])])])
    "en" ["fr"] (fun _ _ => some []) "a" "fr"
    (Json.obj [("localizations", Json.obj [("fr", Json.obj [("stringUnit",
      Json.obj [("value", Json.str "Salut")])])])])
    "Salut"
    (.obj [("strings", .obj [("a", Json.obj [("localizations", Json.obj [("fr",
      Json.obj [("stringUnit", Json.obj [("value", Json.str "Salut")])])])])])])
    [("a", Json.obj [("localizations", Json.obj [("fr", Json.obj [("stringUnit",
      Json.obj [("value", Json.str "Salut")])])])])]
    rfl (by simp) rfl rfl (by decide) rfl

end XCStrings
